import Mathlib

/-!
Shallow embedding of the hypothesis-graphql query-generation engine
(`src/hypothesis_graphql/_strategies/queries.py` and
`src/hypothesis_graphql/_strategies/primitives.py`).

A Hypothesis search strategy is modelled by its observable behaviour: the set
of values a draw can produce (`val`) and the set of exceptions a draw can
raise (`err`).  Constructing a strategy is pure Python code that may itself
raise; construction-time failure is modelled by `Except Err`.  Hypothesis's
`flatmap` is lazy: the callback runs during a draw, so an exception raised
inside the callback is a sampling-time error of the composite strategy, not a
construction-time error — `stratFlatMapE` folds the callback's `Except` into
the `err` component accordingly.
-/

namespace HypothesisGraphql

/-- Exceptions raised by the engine: Python `TypeError` / `ValueError` with
their message text. -/
inductive Err
  | typeError (msg : String)
  | valueError (msg : String)
deriving DecidableEq

/-- A Hypothesis search strategy over `α`, observed through the set of values
a draw can return (`val`) and the set of exceptions a draw can raise
(`err`). -/
structure Strat (α : Type) where
  val : α → Prop
  err : Err → Prop

/-- `st.just a` / a constant strategy: one value, no errors. -/
def stratJust {α : Type} (a : α) : Strat α :=
  ⟨fun x => x = a, fun _ => False⟩

/-- `st.sampled_from(xs)`: any element of the list. -/
def sampledFrom {α : Type} (xs : List α) : Strat α :=
  ⟨fun a => a ∈ xs, fun _ => False⟩

/-- The `|` operator on strategies (`st.one_of`): union of behaviours. -/
def stratOr {α : Type} (s t : Strat α) : Strat α :=
  ⟨fun a => s.val a ∨ t.val a, fun e => s.err e ∨ t.err e⟩

/-- `strategy.map(f)`. -/
def stratMap {α β : Type} (f : α → β) (s : Strat α) : Strat β :=
  ⟨fun b => ∃ a, s.val a ∧ b = f a, s.err⟩

/-- `st.builds(f, x=s, y=t)` with two components. -/
def stratMap2 {α β γ : Type} (f : α → β → γ) (s : Strat α) (t : Strat β) : Strat γ :=
  ⟨fun c => ∃ a b, s.val a ∧ t.val b ∧ c = f a b, fun e => s.err e ∨ t.err e⟩

/-- `st.tuples(*ss)` (then `.map(list)`): one draw from each component, in
order; any component may raise its errors. -/
def stratTuples {α : Type} (ss : List (Strat α)) : Strat (List α) :=
  ⟨fun l => List.Forall₂ (fun s a => s.val a) ss l, fun e => ∃ s ∈ ss, s.err e⟩

/-- `st.lists(s)` with no size or uniqueness constraint. -/
def stratLists {α : Type} (s : Strat α) : Strat (List α) :=
  ⟨fun l => ∀ a ∈ l, s.val a, s.err⟩

/-- `st.lists(s, min_size=1, unique_by=key)`: non-empty, elementwise from
`s`, keys pairwise distinct. -/
def stratNonemptyUniqueBy {α β : Type} (s : Strat α) (key : α → β) : Strat (List α) :=
  ⟨fun l => l ≠ [] ∧ (∀ a ∈ l, s.val a) ∧ (l.map key).Nodup, s.err⟩

/-- `base.flatmap(f)` where the callback `f` is Python code that may raise: the
callback runs during a draw, so its construction-time failure becomes a
sampling-time error of the composite strategy. -/
def stratFlatMapE {α β : Type} (s : Strat α) (f : α → Except Err (Strat β)) : Strat β :=
  ⟨fun b => ∃ a t, s.val a ∧ f a = Except.ok t ∧ t.val b,
   fun e => s.err e ∨ (∃ a, s.val a ∧ f a = Except.error e) ∨
     (∃ a t, s.val a ∧ f a = Except.ok t ∧ t.err e)⟩

/-- `st.integers(min_value=lo, max_value=hi)`. -/
def stratInts (lo hi : Int) : Strat Int :=
  ⟨fun n => lo ≤ n ∧ n ≤ hi, fun _ => False⟩

/-- `st.booleans()`. -/
def stratBooleans : Strat Bool :=
  ⟨fun _ => True, fun _ => False⟩

/-- `st.floats(allow_infinity=False, allow_nan=False)`.  The finite-float
payload domain is abstracted as `Int` (no claim inspects float payloads). -/
def stratFiniteFloats : Strat Int :=
  ⟨fun _ => True, fun _ => False⟩

/-- A Unicode code point drawable by
`st.characters(blacklist_categories=("Cs",), max_codepoint=0xFFFF)`:
at most U+FFFF and not a surrogate (general category Cs is exactly
U+D800..U+DFFF). -/
def allowedCodePoint (c : Nat) : Prop :=
  c ≤ 0xFFFF ∧ ¬ (0xD800 ≤ c ∧ c ≤ 0xDFFF)

/-- `st.characters(blacklist_categories=("Cs",), max_codepoint=0xFFFF)`,
code points modelled as `Nat`. -/
def stratCharacters : Strat Nat :=
  ⟨allowedCodePoint, fun _ => False⟩

/-- The value drawn by `e` when construction succeeded: `False` when
construction failed. -/
def okVal {α : Type} (e : Except Err (Strat α)) (a : α) : Prop :=
  match e with
  | Except.ok s => s.val a
  | Except.error _ => False

/-- A sampling-time error of `e` when construction succeeded: `False` when
construction failed. -/
def okErr {α : Type} (e : Except Err (Strat α)) (er : Err) : Prop :=
  match e with
  | Except.ok s => s.err er
  | Except.error _ => False

/-- GraphQL value AST nodes (`graphql.ValueNode` variants).  `IntValueNode`
and `FloatValueNode` store `str(v)`; the decimal rendering is kept as the
drawn number.  `ListValueNode.values` and `ObjectValueNode.fields` are
optional exactly as in graphql-core, where they may be `None`. -/
inductive ValueNode
  | nullValue
  | intValue (value : Int)
  | floatValue (value : Int)
  | stringValue (value : List Nat)
  | booleanValue (value : Bool)
  | enumValue (value : String)
  | listValue (values : Option (List ValueNode))
  | objectValue (fields : Option (List (String × ValueNode)))

namespace primitives

/-- MIN_INT from primitives.py. -/
def MIN_INT : Int := -(2 ^ 31)

/-- MAX_INT from primitives.py. -/
def MAX_INT : Int := 2 ^ 31 - 1

/-- `maybe_null`: when `nullable`, the strategy is the alternation of itself
with a constant `NullValueNode`. -/
def maybe_null (strategy : Strat ValueNode) (nullable : Bool) : Strat ValueNode :=
  if nullable then stratOr strategy (stratJust ValueNode.nullValue) else strategy

/-- `int_` from primitives.py. -/
def int_ (nullable : Bool) : Strat ValueNode :=
  maybe_null (stratMap (fun v => ValueNode.intValue v) (stratInts MIN_INT MAX_INT)) nullable

/-- `float_` from primitives.py. -/
def float_ (nullable : Bool) : Strat ValueNode :=
  maybe_null (stratMap (fun v => ValueNode.floatValue v) stratFiniteFloats) nullable

/-- `string` from primitives.py: text over non-surrogate BMP code points. -/
def string (nullable : Bool) : Strat ValueNode :=
  maybe_null (stratMap (fun v => ValueNode.stringValue v) (stratLists stratCharacters)) nullable

/-- `id_` from primitives.py: a String-shaped or an Int-shaped literal. -/
def id_ (nullable : Bool) : Strat ValueNode :=
  stratOr (string nullable) (int_ nullable)

/-- `boolean` from primitives.py. -/
def boolean (nullable : Bool) : Strat ValueNode :=
  maybe_null (stratMap (fun v => ValueNode.booleanValue v) stratBooleans) nullable

/-- `enum` from primitives.py, given the enum type's declared value names. -/
def enum (values : List String) (nullable : Bool) : Strat ValueNode :=
  maybe_null (stratMap (fun v => ValueNode.enumValue v) (sampledFrom values)) nullable

/-- `scalar` from primitives.py: dispatch on the scalar type's name; any name
outside the five built-ins raises `TypeError`. -/
def scalar (name : String) (nullable : Bool) : Except Err (Strat ValueNode) :=
  if name = "Int" then Except.ok (int_ nullable)
  else if name = "Float" then Except.ok (float_ nullable)
  else if name = "String" then Except.ok (string nullable)
  else if name = "ID" then Except.ok (id_ nullable)
  else if name = "Boolean" then Except.ok (boolean nullable)
  else Except.error (Err.typeError "Custom scalar types are not supported")

end primitives

/-- GraphQL input types as used by the engine (`graphql.GraphQLInputType`):
named scalars, enums (with their declared value names), input objects (with
their declared fields), and the `List` / `NonNull` wrappers. -/
inductive GQLInputType
  | scalar (name : String)
  | enum (name : String) (values : List String)
  | list (ofType : GQLInputType)
  | nonNull (ofType : GQLInputType)
  | inputObject (name : String) (fields : List (String × GQLInputType))

/-- `isinstance(t, graphql.GraphQLNonNull)`. -/
def isNonNull : GQLInputType → Bool
  | GQLInputType.nonNull _ => true
  | _ => false

/-- `check_nullable` from queries.py: unwrap one `NonNull` layer and report
whether the position is nullable. -/
def check_nullable : GQLInputType → GQLInputType × Bool
  | GQLInputType.nonNull t => (t, false)
  | t => (t, true)

/-- Sorted insert for `sorted(all_fields.items())`: ascending by field name
(names are dictionary keys, hence unique, so the tuple comparison reduces to
the name comparison). -/
def insertPair {α : Type} (p : String × α) : List (String × α) → List (String × α)
  | [] => [p]
  | q :: rest => if p.1 ≤ q.1 then p :: q :: rest else q :: insertPair p rest

/-- `sorted(all_fields.items())`: insertion sort by field name. -/
def sortPairs {α : Type} : List (String × α) → List (String × α)
  | [] => []
  | p :: rest => insertPair p (sortPairs rest)

/-- `subset_of_fields` from queries.py: sort the field pairs by name, then
draw a non-empty list of pairs unique by name. -/
def subset_of_fields {α : Type} (all_fields : List (String × α)) : Strat (List (String × α)) :=
  stratNonemptyUniqueBy (sampledFrom (sortPairs all_fields)) Prod.fst

/-- The strategies built inside `list_of_nodes` with `object_field_nodes`:
for each drawn pair, `st.builds(ObjectFieldNode(name=n), value=s)`; building
each strategy runs left to right and the first construction failure
propagates.  Per-field strategies are compiled ahead of the draw (they are
pure values), so the callback just sequences the stored results. -/
def sequence_field_strats {α : Type} :
    List (String × Except Err (Strat α)) → Except Err (List (Strat (String × α)))
  | [] => Except.ok []
  | (_, Except.error e) :: _ => Except.error e
  | (n, Except.ok s) :: rest =>
    (sequence_field_strats rest).map (fun others => stratMap (fun v => (n, v)) s :: others)

/-- `list_of_object_field_nodes` (the `objects` flat-map callback):
`st.tuples(*(object_field_nodes(name, field) for ...)).map(list)`. -/
def list_of_object_field_nodes (pairs : List (String × Except Err (Strat ValueNode))) :
    Except Err (Strat (List (String × ValueNode))) :=
  (sequence_field_strats pairs).map stratTuples

mutual

/-- `value_nodes` from queries.py: unwrap one `NonNull` layer
(`check_nullable`), then dispatch on the unwrapped kind; an unhandled kind
(here a doubly-wrapped `NonNull`) falls through to the trailing
`TypeError`. -/
def value_nodes : GQLInputType → Except Err (Strat ValueNode)
  | GQLInputType.nonNull t => value_nodes_unwrapped t false
  | t => value_nodes_unwrapped t true

/-- The kind dispatch inside `value_nodes`, after `check_nullable`. -/
def value_nodes_unwrapped : GQLInputType → Bool → Except Err (Strat ValueNode)
  | GQLInputType.scalar name, nullable => primitives.scalar name nullable
  | GQLInputType.enum _ values, nullable => Except.ok (primitives.enum values nullable)
  | GQLInputType.list ofType, nullable => lists ofType nullable
  | GQLInputType.inputObject _ fields, nullable => Except.ok (objects fields nullable)
  | GQLInputType.nonNull _, _ =>
    Except.error (Err.typeError "Type GraphQLNonNull is not supported.")

/-- `lists` from queries.py: `st.lists(value_nodes(of_type))` is built
eagerly (a nested construction failure propagates here); when `nullable`,
`st.none()` is an alternative for the `values` payload, so the null branch is
a `ListValueNode` with absent values, not a `NullValueNode`. -/
def lists (type_ : GQLInputType) (nullable : Bool) : Except Err (Strat ValueNode) :=
  (value_nodes type_).map (fun elem =>
    let list_value := stratMap some (stratLists elem)
    let list_value := if nullable then stratOr list_value (stratJust none) else list_value
    stratMap (fun values => ValueNode.listValue values) list_value)

/-- `objects` from queries.py: a non-empty subset of the declared fields is
drawn, then each drawn field's value strategy is built inside the (lazy)
flat-map callback; when `nullable`, `st.none()` is an alternative for the
`fields` payload, so the null branch is an `ObjectValueNode` with absent
fields, not a `NullValueNode`.  Per-field strategies are compiled before the
subset draw (compilation is pure), which leaves the semantics unchanged:
their errors still surface only when the callback runs on a drawn subset
containing the field. -/
def objects (fields : List (String × GQLInputType)) (nullable : Bool) : Strat ValueNode :=
  let fields_value :=
    stratFlatMapE (subset_of_fields (compile_input_fields fields)) list_of_object_field_nodes
  let fields_value := stratMap some fields_value
  let fields_value := if nullable then stratOr fields_value (stratJust none) else fields_value
  stratMap (fun fs => ValueNode.objectValue fs) fields_value

/-- Per-field value strategies for an input object, in declaration order. -/
def compile_input_fields :
    List (String × GQLInputType) → List (String × Except Err (Strat ValueNode))
  | [] => []
  | (n, t) :: rest => (n, value_nodes t) :: compile_input_fields rest

end

/-- `argument_values` from queries.py. -/
def argument_values (argument : GQLInputType) : Except Err (Strat ValueNode) :=
  value_nodes argument

/-- The loop body of `list_of_arguments`: build each argument's value
strategy in declaration order; a `TypeError` from a nullable argument skips
the argument, a `TypeError` from a non-null argument is re-raised with the
non-nullable-custom-scalar message. -/
def argument_strats :
    List (String × GQLInputType) → Except Err (List (Strat (String × ValueNode)))
  | [] => Except.ok []
  | (name, argument) :: rest =>
    match argument_values argument with
    | Except.error _ =>
      if isNonNull argument then
        Except.error (Err.typeError "Non-nullable custom scalar types are not supported as arguments")
      else argument_strats rest
    | Except.ok argument_strategy =>
      (argument_strats rest).map
        (fun others => stratMap (fun value => (name, value)) argument_strategy :: others)

/-- `list_of_arguments` from queries.py: `st.tuples(*args).map(list)` over
the per-argument `ArgumentNode` strategies (an `ArgumentNode` is modelled as
its `(name, value)` pair). -/
def list_of_arguments (kwargs : List (String × GQLInputType)) :
    Except Err (Strat (List (String × ValueNode))) :=
  (argument_strats kwargs).map stratTuples

/-- GraphQL selection AST nodes.  A `FieldNode` carries its argument nodes
(as `(name, value)` pairs) and a `SelectionSetNode` whose `selections` may be
absent (`fields_for_type` yields `None` for leaf fields); the
`SelectionSetNode` wrapper is identified with its optional `selections`
list. -/
inductive SelectionNode
  | field (name : String) (arguments : List (String × ValueNode))
      (selectionSet : Option (List SelectionNode))
  | inlineFragment (typeCondition : String) (selectionSet : Option (List SelectionNode))

/-- The operation kind of an `OperationDefinitionNode`; queries.py always
uses `QUERY`. -/
inductive OperationType
  | query
deriving DecidableEq

/-- `graphql.OperationDefinitionNode` as built by `make_query`. -/
structure OperationDefinitionNode where
  operation : OperationType
  selectionSet : Option (List SelectionNode)

/-- `graphql.DocumentNode` as built by `make_query`. -/
structure DocumentNode where
  definitions : List OperationDefinitionNode

/-- `make_query` from queries.py: a document with exactly one operation
definition of kind `QUERY` wrapping the drawn selections. -/
def make_query (selections : List SelectionNode) : DocumentNode :=
  ⟨[⟨OperationType.query, some selections⟩]⟩

mutual

/-- GraphQL output types as dispatched on by `fields_for_type`: only object
and union types yield nested selections; scalar, enum and interface types
are leaves in this version of the code. -/
inductive OutType
  | scalarT (name : String)
  | enumT (name : String) (values : List String)
  | objectT (obj : ObjectType)
  | interfaceT (name : String)
  | unionT (name : String) (types : List ObjectType)
  | listT (ofType : OutType)
  | nonNullT (ofType : OutType)

/-- `graphql.GraphQLObjectType`: a name and named fields. -/
inductive ObjectType
  | mk (name : String) (fields : List (String × GQLField))

/-- `graphql.GraphQLField`: named arguments and an output type. -/
inductive GQLField
  | mk (args : List (String × GQLInputType)) (type : OutType)

end

/-- The `name` attribute of an object type. -/
def ObjectType.name : ObjectType → String
  | ObjectType.mk n _ => n

/-- The `fields` attribute of an object type. -/
def ObjectType.fields : ObjectType → List (String × GQLField)
  | ObjectType.mk _ fs => fs

/-- The `args` attribute of a field. -/
def GQLField.args : GQLField → List (String × GQLInputType)
  | GQLField.mk a _ => a

/-- The `type` attribute of a field. -/
def GQLField.type : GQLField → OutType
  | GQLField.mk _ t => t

/-- The flat-map callback of `_fields` (`lists_of_field_nodes`):
`st.tuples(*(field_nodes(name, field) for ...)).map(list)`, where building
the per-field strategies runs left to right and the first construction
failure propagates.  Per-field strategies are compiled ahead of the draw
(they are pure values), so the callback sequences the stored results. -/
def sequence_selection_strats :
    List (String × Except Err (Strat SelectionNode)) → Except Err (List (Strat SelectionNode))
  | [] => Except.ok []
  | (_, Except.error e) :: _ => Except.error e
  | (_, Except.ok s) :: rest => (sequence_selection_strats rest).map (fun others => s :: others)

/-- `lists_of_field_nodes` from queries.py. -/
def lists_of_field_nodes (pairs : List (String × Except Err (Strat SelectionNode))) :
    Except Err (Strat (List SelectionNode)) :=
  (sequence_selection_strats pairs).map stratTuples

/-- The `if fields:` candidate restriction in `_fields` (Python truthiness:
both `None` and an empty tuple leave the full field map). -/
def restrict_fields {α : Type} (compiled : List (String × α)) :
    Option (List String) → List (String × α)
  | some (f :: fs) => compiled.filter (fun p => decide (p.1 ∈ f :: fs))
  | _ => compiled

mutual

/-- `_fields` from queries.py: restrict the candidate field map when a
(Python-truthy, i.e. non-empty) `fields` tuple is given, then draw a
non-empty subset and build the drawn fields' nodes inside the lazy flat-map
callback.  Per-field compilation is hoisted before the filter/draw
(compilation is pure), leaving the semantics unchanged: a field's
construction error still surfaces only for draws whose subset contains the
field. -/
def _fields (object_type : ObjectType) (fields : Option (List String)) :
    Strat (List SelectionNode) :=
  match object_type with
  | ObjectType.mk _ tfs =>
    stratFlatMapE (subset_of_fields (restrict_fields (compile_fields tfs) fields))
      lists_of_field_nodes

/-- The per-field node strategies of an object type, in declaration order. -/
def compile_fields :
    List (String × GQLField) → List (String × Except Err (Strat SelectionNode))
  | [] => []
  | (n, f) :: rest => (n, field_nodes n f) :: compile_fields rest

/-- `field_nodes` from queries.py: `st.builds(FieldNode(name=name),
arguments=list_of_arguments(**field.args),
selection_set=st.builds(make_selection_set_node,
selections=fields_for_type(field)))`; `list_of_arguments` is evaluated
first, so its `TypeError` propagates out of `field_nodes`. -/
def field_nodes (name : String) (field : GQLField) : Except Err (Strat SelectionNode) :=
  match field with
  | GQLField.mk args type_ =>
    (list_of_arguments args).map (fun argument_strategy =>
      stratMap2 (fun arguments selection_set => SelectionNode.field name arguments selection_set)
        argument_strategy (fields_for_type type_))

/-- `fields_for_type` from queries.py, applied to the field's `type`: the
`while isinstance(..., GraphQLWrappingType)` loop is the recursion through
`listT` / `nonNullT`; object types recurse into `_fields` with no
restriction, union types draw a non-empty name-unique list of member object
types and build one inline fragment per drawn member, and every other kind
yields `st.none()`. -/
def fields_for_type : OutType → Strat (Option (List SelectionNode))
  | OutType.listT t => fields_for_type t
  | OutType.nonNullT t => fields_for_type t
  | OutType.objectT o => stratMap some (_fields o none)
  | OutType.unionT _ types =>
    stratMap some
      (stratFlatMapE
        (stratNonemptyUniqueBy (sampledFrom (compile_members types)) Prod.fst)
        (fun pairs => Except.ok (stratTuples (pairs.map Prod.snd))))
  | _ => stratJust none

/-- The per-member inline-fragment strategies of a union, paired with the
member name used by `unique_by=lambda m: m.name`. -/
def compile_members : List ObjectType → List (String × Strat SelectionNode)
  | [] => []
  | o :: rest => (ObjectType.name o, inline_fragment o) :: compile_members rest

/-- `inline_fragment` from queries.py: a fragment on the member type whose
selection set draws from `_fields` with no restriction. -/
def inline_fragment (type_ : ObjectType) : Strat SelectionNode :=
  stratMap
    (fun sels => SelectionNode.inlineFragment (ObjectType.name type_) (some sels))
    (_fields type_ none)

end

/-- `graphql.GraphQLSchema`, reduced to what queries.py reads: the optional
`Query` root type.  Parsing schema source text into this structure is the
external graphql library's job. -/
structure GraphQLSchema where
  query_type : Option ObjectType

/-- `query` from queries.py, up to the final external `graphql.print_ast`
serialization step: validate the root type and the optional `fields`
restriction synchronously, then return the document strategy. -/
def query (schema : GraphQLSchema) (fields : Option (List String)) :
    Except Err (Strat DocumentNode) :=
  match schema.query_type with
  | none => Except.error (Err.valueError "Query type is not defined in the schema")
  | some query_type =>
    match fields with
    | none => Except.ok (stratMap make_query (_fields query_type none))
    | some fs =>
      if fs = [] then
        Except.error (Err.valueError "If you pass `fields`, it should not be empty")
      else
        let invalid_fields := fs.filter (fun f => !((query_type.fields.map Prod.fst).contains f))
        if invalid_fields ≠ [] then
          Except.error (Err.valueError ("Unknown fields: " ++ String.intercalate ", " invalid_fields))
        else Except.ok (stratMap make_query (_fields query_type (some fs)))

/-- The names of the five built-in scalars supported by
`primitives.scalar`. -/
def supported_scalar_names : List String := ["Int", "Float", "String", "ID", "Boolean"]

mutual

/-- Well-formedness of a selection node: every selection-set payload that is
present (`some`) is non-empty, recursively. -/
def selOk : SelectionNode → Prop
  | SelectionNode.field _ _ ss => selsOk ss
  | SelectionNode.inlineFragment _ ss => selsOk ss

/-- Well-formedness of an optional selection-set payload: an absent payload
is fine, a present payload must be non-empty and recursively
well-formed. -/
def selsOk : Option (List SelectionNode) → Prop
  | none => True
  | some l => l ≠ [] ∧ selListOk l

/-- Well-formedness of every node in a selection list. -/
def selListOk : List SelectionNode → Prop
  | [] => True
  | s :: rest => selOk s ∧ selListOk rest

end

/-- Modelled from the spec: the parsed schema graph returned by the Schema
Cache.  The cache module (`hypothesis_graphql/cache.py`, imported by the
repository's tests as `cached_build_schema`) is not among the provided
sources; `instanceId` distinguishes distinct parse results of the external
library so that "returns the same graph instance" is expressible. -/
structure ParsedSchemaGraph where
  instanceId : Nat
  source : String
deriving DecidableEq

/-- Modelled from the spec: the process-wide cache state — a mapping from
exact source text to previously parsed schema graphs, plus a counter
producing fresh instance identities for new parses. -/
structure SchemaCache where
  entries : List (String × ParsedSchemaGraph)
  nextId : Nat

/-- Modelled from the spec: `cached_build_schema` (§4.4 Schema Cache) — a
cache hit returns the stored graph instance unchanged; a miss parses via the
external library (a fresh instance), stores it, and returns it; there is no
eviction. -/
def cached_build_schema (source : String) (cache : SchemaCache) :
    ParsedSchemaGraph × SchemaCache :=
  match cache.entries.lookup source with
  | some graph => (graph, cache)
  | none =>
    let graph : ParsedSchemaGraph := ⟨cache.nextId, source⟩
    (graph, ⟨(source, graph) :: cache.entries, cache.nextId + 1⟩)

/-- A `Query` root field with a single required argument of the custom
scalar `Date` (the spec's `getByDate(created: Date!)` example). -/
def getByDateField : GQLField :=
  GQLField.mk [("created", GQLInputType.nonNull (GQLInputType.scalar "Date"))]
    (OutType.scalarT "Int")

/-- The root type whose only field has a required custom-scalar argument. -/
def dateRoot : ObjectType := ObjectType.mk "Query" [("getByDate", getByDateField)]

/-- A schema whose only root field has a required custom-scalar argument. -/
def dateSchema : GraphQLSchema := ⟨some dateRoot⟩

/-- An object type with two scalar fields, used as a nested selection
target. -/
def nestedType : ObjectType :=
  ObjectType.mk "TypeA" [("x", GQLField.mk [] (OutType.scalarT "Int")),
    ("y", GQLField.mk [] (OutType.scalarT "Int"))]

/-- A root type offering `A` (an object-typed field) and `B`, used to check
the `fields` restriction. -/
def restrictRoot : ObjectType :=
  ObjectType.mk "Query"
    [("A", GQLField.mk [] (OutType.objectT nestedType)),
     ("B", GQLField.mk [] (OutType.scalarT "Int"))]

/-- A schema whose root offers `A` and `B`. -/
def restrictSchema : GraphQLSchema := ⟨some restrictRoot⟩

/-- A minimal root type with a single argument-free scalar field. -/
def tinyRoot : ObjectType := ObjectType.mk "Query" [("a", GQLField.mk [] (OutType.scalarT "Int"))]

/-- A minimal schema with a single argument-free scalar root field. -/
def tinySchema : GraphQLSchema := ⟨some tinyRoot⟩

/-! Unfolding lemmas for the mutually recursive selection builders, and
basic facts about the strategy combinators and the field sort. -/

theorem fields_def (o : ObjectType) (r : Option (List String)) :
    _fields o r =
      stratFlatMapE (subset_of_fields (restrict_fields (compile_fields o.fields) r))
        lists_of_field_nodes := by
  rw [_fields.eq_def]
  cases o
  rfl

theorem field_nodes_def (name : String) (f : GQLField) :
    field_nodes name f =
      (list_of_arguments f.args).map (fun argument_strategy =>
        stratMap2
          (fun arguments selection_set => SelectionNode.field name arguments selection_set)
          argument_strategy (fields_for_type f.type)) := by
  rw [field_nodes.eq_def]
  cases f
  rfl

theorem fields_for_type_listT (t : OutType) :
    fields_for_type (OutType.listT t) = fields_for_type t := by
  rw [fields_for_type.eq_def]

theorem fields_for_type_nonNullT (t : OutType) :
    fields_for_type (OutType.nonNullT t) = fields_for_type t := by
  rw [fields_for_type.eq_def]

theorem fields_for_type_objectT (o : ObjectType) :
    fields_for_type (OutType.objectT o) = stratMap some (_fields o none) := by
  rw [fields_for_type.eq_def]

theorem fields_for_type_unionT (n : String) (types : List ObjectType) :
    fields_for_type (OutType.unionT n types) =
      stratMap some
        (stratFlatMapE
          (stratNonemptyUniqueBy (sampledFrom (compile_members types)) Prod.fst)
          (fun pairs => Except.ok (stratTuples (pairs.map Prod.snd)))) := by
  rw [fields_for_type.eq_def]

theorem fields_for_type_scalarT (n : String) :
    fields_for_type (OutType.scalarT n) = stratJust none := by
  rw [fields_for_type.eq_def]

theorem fields_for_type_enumT (n : String) (vs : List String) :
    fields_for_type (OutType.enumT n vs) = stratJust none := by
  rw [fields_for_type.eq_def]

theorem fields_for_type_interfaceT (n : String) :
    fields_for_type (OutType.interfaceT n) = stratJust none := by
  rw [fields_for_type.eq_def]

theorem inline_fragment_def (o : ObjectType) :
    inline_fragment o =
      stratMap (fun sels => SelectionNode.inlineFragment (ObjectType.name o) (some sels))
        (_fields o none) := by
  rw [inline_fragment.eq_def]

theorem compile_fields_cons (n : String) (f : GQLField) (rest : List (String × GQLField)) :
    compile_fields ((n, f) :: rest) = (n, field_nodes n f) :: compile_fields rest := by
  rw [compile_fields.eq_def]

theorem compile_members_cons (o : ObjectType) (rest : List ObjectType) :
    compile_members (o :: rest) = (ObjectType.name o, inline_fragment o) :: compile_members rest := by
  rw [compile_members.eq_def]

theorem mem_insertPair {α : Type} (p q : String × α) (l : List (String × α)) :
    q ∈ insertPair p l ↔ q = p ∨ q ∈ l := by
  induction l with
  | nil => simp [insertPair]
  | cons r rest ih =>
    by_cases h : p.1 ≤ r.1
    · simp [insertPair, h]
    · simp only [insertPair, if_neg h, List.mem_cons, ih]
      tauto

theorem mem_sortPairs {α : Type} (q : String × α) (l : List (String × α)) :
    q ∈ sortPairs l ↔ q ∈ l := by
  induction l with
  | nil => simp [sortPairs]
  | cons p rest ih => simp [sortPairs, mem_insertPair, ih]

theorem sortPairs_perm {α : Type} (l : List (String × α)) : (sortPairs l).Perm l := by
  induction l with
  | nil => simp [sortPairs]
  | cons p rest ih =>
    have h : ∀ (m : List (String × α)), (insertPair p m).Perm (p :: m) := by
      intro m
      induction m with
      | nil => simp [insertPair]
      | cons r mrest mih =>
        by_cases hle : p.1 ≤ r.1
        · simp [insertPair, hle]
        · simp only [insertPair, if_neg hle]
          exact ((mih.cons r).trans (List.Perm.swap p r mrest))
    exact (h (sortPairs rest)).trans (ih.cons p)

theorem sortPairs_sorted {α : Type} (l : List (String × α)) :
    (sortPairs l).Pairwise (fun a b => a.1 ≤ b.1) := by
  induction l with
  | nil => simp [sortPairs]
  | cons p rest ih =>
    have h : ∀ (m : List (String × α)), m.Pairwise (fun a b => a.1 ≤ b.1) →
        (insertPair p m).Pairwise (fun a b => a.1 ≤ b.1) := by
      intro m
      induction m with
      | nil => intro _; simp [insertPair]
      | cons r mrest mih =>
        intro hm
        rw [List.pairwise_cons] at hm
        by_cases hle : p.1 ≤ r.1
        · rw [insertPair, if_pos hle, List.pairwise_cons]
          refine ⟨?_, List.pairwise_cons.mpr hm⟩
          intro b hb
          rcases List.mem_cons.mp hb with hb | hb
          · exact hb ▸ hle
          · exact le_trans hle (hm.1 b hb)
        · rw [insertPair, if_neg hle, List.pairwise_cons]
          refine ⟨?_, mih hm.2⟩
          intro b hb
          rcases (mem_insertPair p b mrest).mp hb with hb | hb
          · exact hb ▸ le_of_not_le hle
          · exact hm.1 b hb
    exact h (sortPairs rest) ih

theorem except_map_ok {α β : Type} (f : α → β) (e : Except Err α) (b : β) :
    e.map f = Except.ok b ↔ ∃ a, e = Except.ok a ∧ b = f a := by
  cases e <;> simp [Except.map, eq_comm]

theorem except_map_error {α β : Type} (f : α → β) (e : Except Err α) (er : Err) :
    e.map f = Except.error er ↔ e = Except.error er := by
  cases e <;> simp [Except.map]

theorem sequence_selection_strats_ok_iff
    (pairs : List (String × Except Err (Strat SelectionNode)))
    (ss : List (Strat SelectionNode)) :
    sequence_selection_strats pairs = Except.ok ss ↔
      List.Forall₂ (fun p s => p.2 = Except.ok s) pairs ss := by
  induction pairs generalizing ss with
  | nil =>
    simp only [sequence_selection_strats, List.forall₂_nil_left_iff]
    constructor
    · intro h
      cases h
      rfl
    · intro h
      cases h
      rfl
  | cons p rest ih =>
    obtain ⟨n, e⟩ := p
    cases e with
    | error er => simp [sequence_selection_strats, List.forall₂_cons_left_iff]
    | ok s =>
      simp only [sequence_selection_strats, List.forall₂_cons_left_iff, except_map_ok]
      constructor
      · rintro ⟨others, hrest, rfl⟩
        exact ⟨s, others, rfl, (ih others).mp hrest, rfl⟩
      · rintro ⟨b, u', hb, h2, rfl⟩
        cases hb
        exact ⟨u', (ih u').mpr h2, rfl⟩

theorem sequence_field_strats_ok_iff {α : Type}
    (pairs : List (String × Except Err (Strat α)))
    (ss : List (Strat (String × α))) :
    sequence_field_strats pairs = Except.ok ss ↔
      List.Forall₂ (fun p s => ∃ t, p.2 = Except.ok t ∧ s = stratMap (fun v => (p.1, v)) t)
        pairs ss := by
  induction pairs generalizing ss with
  | nil =>
    simp only [sequence_field_strats, List.forall₂_nil_left_iff]
    constructor
    · intro h
      cases h
      rfl
    · intro h
      cases h
      rfl
  | cons p rest ih =>
    obtain ⟨n, e⟩ := p
    cases e with
    | error er => simp [sequence_field_strats, List.forall₂_cons_left_iff]
    | ok s =>
      simp only [sequence_field_strats, List.forall₂_cons_left_iff, except_map_ok]
      constructor
      · rintro ⟨others, hrest, rfl⟩
        exact ⟨stratMap (fun v => (n, v)) s, others, ⟨s, rfl, rfl⟩, (ih others).mp hrest, rfl⟩
      · rintro ⟨b, u', ⟨t, ht, rfl⟩, h2, rfl⟩
        cases ht
        exact ⟨u', (ih u').mpr h2, rfl⟩

theorem forall2_mem_right {α β : Type} {R : α → β → Prop} {xs : List α} {ys : List β}
    (h : List.Forall₂ R xs ys) {y : β} (hy : y ∈ ys) : ∃ x ∈ xs, R x y := by
  induction h with
  | nil => cases hy
  | cons h1 _ ih =>
    rcases List.mem_cons.mp hy with rfl | hy
    · exact ⟨_, List.mem_cons_self _ _, h1⟩
    · obtain ⟨x, hx, hR⟩ := ih hy
      exact ⟨x, List.mem_cons_of_mem _ hx, hR⟩

theorem selListOk_iff (l : List SelectionNode) : selListOk l ↔ ∀ s ∈ l, selOk s := by
  induction l with
  | nil => simp [selListOk]
  | cons s rest ih =>
    rw [selListOk.eq_def]
    simp [ih]

theorem restrict_fields_subset {α : Type} (compiled : List (String × α))
    (r : Option (List String)) (p : String × α) (hp : p ∈ restrict_fields compiled r) :
    p ∈ compiled := by
  match r with
  | none => exact hp
  | some [] => exact hp
  | some (f :: fs) => exact (List.mem_filter.mp hp).1

theorem restrict_fields_name {α : Type} (compiled : List (String × α))
    (f : String) (fs : List String) (p : String × α)
    (hp : p ∈ restrict_fields compiled (some (f :: fs))) : p.1 ∈ f :: fs := by
  have := (List.mem_filter.mp hp).2
  simpa using this

theorem compile_fields_mem (fl : List (String × GQLField)) (n : String) (f : GQLField)
    (h : (n, f) ∈ fl) : (n, field_nodes n f) ∈ compile_fields fl := by
  induction fl with
  | nil => cases h
  | cons p rest ih =>
    rw [compile_fields.eq_def]
    obtain ⟨m, g⟩ := p
    rcases List.mem_cons.mp h with heq | h
    · cases heq
      exact List.mem_cons_self _ _
    · exact List.mem_cons_of_mem _ (ih h)

theorem compile_fields_mem_inv (fl : List (String × GQLField)) (p : String × Except Err (Strat SelectionNode))
    (h : p ∈ compile_fields fl) : ∃ f, (p.1, f) ∈ fl ∧ p.2 = field_nodes p.1 f := by
  induction fl with
  | nil => rw [compile_fields.eq_def] at h; cases h
  | cons q rest ih =>
    obtain ⟨m, g⟩ := q
    rw [compile_fields_cons] at h
    rcases List.mem_cons.mp h with heq | h
    · subst heq
      exact ⟨g, List.mem_cons_self _ _, rfl⟩
    · obtain ⟨f, hf, he⟩ := ih h
      exact ⟨f, List.mem_cons_of_mem _ hf, he⟩

theorem compile_members_mem_inv (ml : List ObjectType) (p : String × Strat SelectionNode)
    (h : p ∈ compile_members ml) :
    ∃ o ∈ ml, p.1 = ObjectType.name o ∧ p.2 = inline_fragment o := by
  induction ml with
  | nil => rw [compile_members.eq_def] at h; cases h
  | cons o rest ih =>
    rw [compile_members_cons] at h
    rcases List.mem_cons.mp h with heq | h
    · subst heq
      exact ⟨o, List.mem_cons_self _ _, rfl, rfl⟩
    · obtain ⟨o', ho', h1, h2⟩ := ih h
      exact ⟨o', List.mem_cons_of_mem _ ho', h1, h2⟩

theorem subset_of_fields_val_single {α : Type} (all_fields : List (String × α))
    (p : String × α) (hp : p ∈ all_fields) : (subset_of_fields all_fields).val [p] := by
  refine ⟨by simp, ?_, by simp⟩
  intro q hq
  rcases List.mem_singleton.mp hq with rfl
  exact (mem_sortPairs q all_fields).mpr hp

theorem stratMap_val_intro {α β : Type} (f : α → β) (s : Strat α) (a : α) (h : s.val a) :
    (stratMap f s).val (f a) := ⟨a, h, rfl⟩

theorem stratMap2_val_intro {α β γ : Type} (f : α → β → γ) (s : Strat α) (t : Strat β)
    (a : α) (b : β) (ha : s.val a) (hb : t.val b) : (stratMap2 f s t).val (f a b) :=
  ⟨a, b, ha, hb, rfl⟩

theorem stratFlatMapE_val_intro {α β : Type} (s : Strat α) (f : α → Except Err (Strat β))
    (a : α) (t : Strat β) (b : β) (ha : s.val a) (hf : f a = Except.ok t) (hb : t.val b) :
    (stratFlatMapE s f).val b := ⟨a, t, ha, hf, hb⟩

theorem stratTuples_val_single {α : Type} (s : Strat α) (a : α) (h : s.val a) :
    (stratTuples [s]).val [a] := List.Forall₂.cons h List.Forall₂.nil

theorem nodup_keys_unique {α : Type} (l : List (String × α)) (hnd : (l.map Prod.fst).Nodup)
    (n : String) (a b : α) (ha : (n, a) ∈ l) (hb : (n, b) ∈ l) : a = b := by
  induction l with
  | nil => cases ha
  | cons p rest ih =>
    simp only [List.map_cons, List.nodup_cons] at hnd
    rcases List.mem_cons.mp ha with h1 | ha'
    · rcases List.mem_cons.mp hb with h2 | hb'
      · rw [← h1] at h2
        exact (congrArg Prod.snd h2).symm
      · exfalso
        apply hnd.1
        rw [← h1]
        exact List.mem_map.mpr ⟨(n, b), hb', rfl⟩
    · rcases List.mem_cons.mp hb with h2 | hb'
      · exfalso
        apply hnd.1
        rw [← h2]
        exact List.mem_map.mpr ⟨(n, a), ha', rfl⟩
      · exact ih hnd.2 ha' hb'

theorem sizeOf_fields_lt (o : ObjectType) : sizeOf o.fields < sizeOf o := by
  cases o with
  | mk n fs => simp [ObjectType.fields]

theorem sizeOf_type_lt (f : GQLField) : sizeOf f.type < sizeOf f := by
  cases f with
  | mk a t => simp [GQLField.type]

theorem value_nodes_unwrapped_scalar (name : String) (nullable : Bool) :
    value_nodes_unwrapped (GQLInputType.scalar name) nullable = primitives.scalar name nullable := by
  rw [value_nodes_unwrapped.eq_def]

theorem value_nodes_unwrapped_enum (n : String) (values : List String) (nullable : Bool) :
    value_nodes_unwrapped (GQLInputType.enum n values) nullable =
      Except.ok (primitives.enum values nullable) := by
  rw [value_nodes_unwrapped.eq_def]

theorem value_nodes_unwrapped_list (t : GQLInputType) (nullable : Bool) :
    value_nodes_unwrapped (GQLInputType.list t) nullable = lists t nullable := by
  rw [value_nodes_unwrapped.eq_def]

theorem value_nodes_unwrapped_inputObject (n : String) (fs : List (String × GQLInputType))
    (nullable : Bool) :
    value_nodes_unwrapped (GQLInputType.inputObject n fs) nullable =
      Except.ok (objects fs nullable) := by
  rw [value_nodes_unwrapped.eq_def]

theorem value_nodes_unwrapped_nonNull (t : GQLInputType) (nullable : Bool) :
    value_nodes_unwrapped (GQLInputType.nonNull t) nullable =
      Except.error (Err.typeError "Type GraphQLNonNull is not supported.") := by
  rw [value_nodes_unwrapped.eq_def]

theorem value_nodes_scalar (name : String) :
    value_nodes (GQLInputType.scalar name) = primitives.scalar name true := by
  have h1 : value_nodes (GQLInputType.scalar name) =
      value_nodes_unwrapped (GQLInputType.scalar name) true := by
    rw [value_nodes.eq_def]
  rw [h1, value_nodes_unwrapped_scalar]

theorem value_nodes_enum (n : String) (values : List String) :
    value_nodes (GQLInputType.enum n values) = Except.ok (primitives.enum values true) := by
  have h1 : value_nodes (GQLInputType.enum n values) =
      value_nodes_unwrapped (GQLInputType.enum n values) true := by
    rw [value_nodes.eq_def]
  rw [h1, value_nodes_unwrapped_enum]

theorem value_nodes_list (t : GQLInputType) :
    value_nodes (GQLInputType.list t) = lists t true := by
  have h1 : value_nodes (GQLInputType.list t) =
      value_nodes_unwrapped (GQLInputType.list t) true := by
    rw [value_nodes.eq_def]
  rw [h1, value_nodes_unwrapped_list]

theorem value_nodes_inputObject (n : String) (fs : List (String × GQLInputType)) :
    value_nodes (GQLInputType.inputObject n fs) = Except.ok (objects fs true) := by
  have h1 : value_nodes (GQLInputType.inputObject n fs) =
      value_nodes_unwrapped (GQLInputType.inputObject n fs) true := by
    rw [value_nodes.eq_def]
  rw [h1, value_nodes_unwrapped_inputObject]

theorem value_nodes_nonNull (t : GQLInputType) :
    value_nodes (GQLInputType.nonNull t) = value_nodes_unwrapped t false := by
  rw [value_nodes.eq_def]

theorem lists_def (t : GQLInputType) (nullable : Bool) :
    lists t nullable = (value_nodes t).map (fun elem =>
      let list_value := stratMap some (stratLists elem)
      let list_value := if nullable then stratOr list_value (stratJust none) else list_value
      stratMap (fun values => ValueNode.listValue values) list_value) := by
  rw [lists.eq_def]

theorem objects_def (fs : List (String × GQLInputType)) (nullable : Bool) :
    objects fs nullable =
      (let fields_value :=
        stratFlatMapE (subset_of_fields (compile_input_fields fs)) list_of_object_field_nodes
      let fields_value := stratMap some fields_value
      let fields_value :=
        if nullable then stratOr fields_value (stratJust none) else fields_value
      stratMap (fun x => ValueNode.objectValue x) fields_value) := by
  rw [objects.eq_def]

theorem scalar_unsupported (c : String) (nullable : Bool) (h : c ∉ supported_scalar_names) :
    primitives.scalar c nullable =
      Except.error (Err.typeError "Custom scalar types are not supported") := by
  simp only [supported_scalar_names, List.mem_cons, List.mem_singleton] at h
  push_neg at h
  simp [primitives.scalar, h.1, h.2.1, h.2.2.1, h.2.2.2.1, h.2.2.2.2]

theorem argument_values_nonNull_custom (c : String) (h : c ∉ supported_scalar_names) :
    argument_values (GQLInputType.nonNull (GQLInputType.scalar c)) =
      Except.error (Err.typeError "Custom scalar types are not supported") := by
  unfold argument_values
  rw [value_nodes_nonNull, value_nodes_unwrapped_scalar]
  exact scalar_unsupported c false h

theorem argument_values_nullable_custom (c : String) (h : c ∉ supported_scalar_names) :
    argument_values (GQLInputType.scalar c) =
      Except.error (Err.typeError "Custom scalar types are not supported") := by
  unfold argument_values
  rw [value_nodes_scalar]
  exact scalar_unsupported c true h

theorem argument_strats_nil : argument_strats [] = Except.ok [] := by
  rw [argument_strats.eq_def]

theorem argument_strats_cons (name : String) (argument : GQLInputType)
    (rest : List (String × GQLInputType)) :
    argument_strats ((name, argument) :: rest) =
      match argument_values argument with
      | Except.error _ =>
        if isNonNull argument then
          Except.error
            (Err.typeError "Non-nullable custom scalar types are not supported as arguments")
        else argument_strats rest
      | Except.ok argument_strategy =>
        (argument_strats rest).map
          (fun others => stratMap (fun value => (name, value)) argument_strategy :: others) := by
  rw [argument_strats.eq_def]

theorem argument_strats_error_of_nonNull_custom :
    ∀ (args : List (String × GQLInputType)) (n c : String),
      (n, GQLInputType.nonNull (GQLInputType.scalar c)) ∈ args → c ∉ supported_scalar_names →
      argument_strats args =
        Except.error (Err.typeError "Non-nullable custom scalar types are not supported as arguments") := by
  intro args
  induction args with
  | nil => intro n c h; cases h
  | cons p rest ih =>
    intro n c hmem hc
    obtain ⟨m, t⟩ := p
    rw [argument_strats_cons]
    rcases List.mem_cons.mp hmem with heq | hmem'
    · cases heq
      rw [argument_values_nonNull_custom c hc]
      simp [isNonNull]
    · cases hav : argument_values t with
      | error e =>
        cases hnn : isNonNull t with
        | true => simp [hnn]
        | false => simpa [hnn] using ih n c hmem' hc
      | ok s =>
        simp [ih n c hmem' hc, Except.map]

theorem argument_strats_ok_names :
    ∀ (args : List (String × GQLInputType)) (ss : List (Strat (String × ValueNode))),
      argument_strats args = Except.ok ss →
      ∀ s ∈ ss, ∀ p, s.val p → ∃ t, (p.1, t) ∈ args ∧ (argument_values t).isOk = true := by
  intro args
  induction args with
  | nil =>
    intro ss h s hs
    rw [argument_strats_nil] at h
    cases h
    cases hs
  | cons q rest ih =>
    intro ss h s hs p hp
    obtain ⟨m, t⟩ := q
    rw [argument_strats_cons] at h
    cases hav : argument_values t with
    | error e =>
      rw [hav] at h
      cases hnn : isNonNull t with
      | true =>
        rw [hnn] at h
        simp at h
      | false =>
        rw [hnn] at h
        simp only [if_false, Bool.false_eq_true] at h
        obtain ⟨t', ht', hok⟩ := ih ss h s hs p hp
        exact ⟨t', List.mem_cons_of_mem _ ht', hok⟩
    | ok argstrat =>
      rw [hav] at h
      simp only [except_map_ok] at h
      obtain ⟨others, hrest, rfl⟩ := h
      rcases List.mem_cons.mp hs with rfl | hs'
      · obtain ⟨v, _, rfl⟩ := hp
        exact ⟨t, List.mem_cons_self _ _, by simp [hav, Except.isOk, Except.toBool]⟩
      · obtain ⟨t', ht', hok⟩ := ih others hrest s hs' p hp
        exact ⟨t', List.mem_cons_of_mem _ ht', hok⟩

theorem argument_strats_all_ok :
    ∀ (args : List (String × GQLInputType)),
      (∀ p ∈ args, (argument_values p.2).isOk = true) →
      ∃ ss, argument_strats args = Except.ok ss ∧
        List.Forall₂ (fun (p : String × GQLInputType) (s : Strat (String × ValueNode)) =>
          ∀ q, s.val q → q.1 = p.1) args ss := by
  intro args
  induction args with
  | nil =>
    intro _
    exact ⟨[], by rw [argument_strats.eq_def], List.Forall₂.nil⟩
  | cons q rest ih =>
    intro hall
    obtain ⟨m, t⟩ := q
    have ht : (argument_values t).isOk = true := hall (m, t) (List.mem_cons_self _ _)
    cases hav : argument_values t with
    | error e => rw [hav] at ht; simp [Except.isOk, Except.toBool] at ht
    | ok argstrat =>
      obtain ⟨others, hrest, hF⟩ := ih (fun p hp => hall p (List.mem_cons_of_mem _ hp))
      refine ⟨stratMap (fun value => (m, value)) argstrat :: others, ?_, ?_⟩
      · rw [argument_strats_cons]
        rw [hav]
        simp [hrest, Except.map]
      · refine List.Forall₂.cons ?_ hF
        rintro q ⟨v, _, rfl⟩
        rfl

theorem names_of_draw :
    ∀ (args : List (String × GQLInputType)) (ss : List (Strat (String × ValueNode)))
      (l : List (String × ValueNode)),
      List.Forall₂ (fun (p : String × GQLInputType) (s : Strat (String × ValueNode)) =>
        ∀ q, s.val q → q.1 = p.1) args ss →
      List.Forall₂ (fun s a => s.val a) ss l →
      l.map Prod.fst = args.map Prod.fst := by
  intro args ss l h1 h2
  induction h1 generalizing l with
  | nil => cases h2; rfl
  | cons hhead _ ih =>
    cases h2 with
    | cons hval htail =>
      simp only [List.map_cons]
      rw [ih _ htail, hhead _ hval]

theorem restrict_fields_none {α : Type} (compiled : List (String × α)) :
    restrict_fields compiled none = compiled := by
  rw [restrict_fields.eq_def]

theorem lists_of_field_nodes_single_error (n : String) (e : Err) :
    lists_of_field_nodes [(n, Except.error e)] = Except.error e := by
  unfold lists_of_field_nodes
  rw [sequence_selection_strats.eq_def]
  rfl

theorem query_sampling_error_of_bad_field (qt : ObjectType) (n : String) (e : Err)
    (h : (n, Except.error e) ∈ compile_fields qt.fields) :
    okErr (query ⟨some qt⟩ none) e := by
  show (stratMap make_query (_fields qt none)).err e
  show (_fields qt none).err e
  rw [fields_def, restrict_fields_none]
  refine Or.inr (Or.inl ⟨[(n, Except.error e)], ?_, ?_⟩)
  · exact subset_of_fields_val_single _ _ h
  · exact lists_of_field_nodes_single_error n e

theorem restrict_fields_some_cons {α : Type} (compiled : List (String × α)) (f : String)
    (fs : List String) :
    restrict_fields compiled (some (f :: fs)) =
      compiled.filter (fun p => decide (p.1 ∈ f :: fs)) := by
  rw [restrict_fields.eq_def]

theorem lists_of_field_nodes_single_ok (n : String) (s : Strat SelectionNode) :
    lists_of_field_nodes [(n, Except.ok s)] = Except.ok (stratTuples [s]) := rfl

theorem field_nodes_ok_val (n : String) (f : GQLField) (s : Strat SelectionNode)
    (h : field_nodes n f = Except.ok s) (sel : SelectionNode) (hsel : s.val sel) :
    ∃ args ss, sel = SelectionNode.field n args ss ∧ (fields_for_type f.type).val ss := by
  rw [field_nodes_def, except_map_ok] at h
  obtain ⟨argStrat, _, rfl⟩ := h
  obtain ⟨args, ss, _, hss, rfl⟩ := hsel
  exact ⟨args, ss, rfl, hss⟩

theorem fields_val_inv (o : ObjectType) (r : Option (List String)) (l : List SelectionNode)
    (h : (_fields o r).val l) :
    ∃ (pairs : List (String × Except Err (Strat SelectionNode)))
      (ss : List (Strat SelectionNode)),
      pairs ≠ [] ∧
      (∀ p ∈ pairs, p ∈ restrict_fields (compile_fields o.fields) r) ∧
      (pairs.map Prod.fst).Nodup ∧
      List.Forall₂ (fun p s => p.2 = Except.ok s) pairs ss ∧
      List.Forall₂ (fun (s : Strat SelectionNode) a => s.val a) ss l := by
  rw [fields_def] at h
  obtain ⟨pairs, t, ⟨hne, hmem, hnd⟩, hcb, htl⟩ := h
  unfold lists_of_field_nodes at hcb
  rw [except_map_ok] at hcb
  obtain ⟨ss, hseq, rfl⟩ := hcb
  refine ⟨pairs, ss, hne, ?_, hnd, (sequence_selection_strats_ok_iff pairs ss).mp hseq, htl⟩
  intro p hp
  exact (mem_sortPairs p _).mp (hmem p hp)

theorem field_nodes_no_args_ok (n : String) (t : OutType) :
    field_nodes n (GQLField.mk [] t) =
      Except.ok (stratMap2
        (fun arguments selection_set => SelectionNode.field n arguments selection_set)
        (stratTuples []) (fields_for_type t)) := by
  rw [field_nodes_def]
  simp only [GQLField.args, GQLField.type]
  unfold list_of_arguments
  rw [argument_strats_nil]
  rfl

theorem nested_unrestricted_example_val :
    okVal (query restrictSchema (some ["A"]))
      (make_query [SelectionNode.field "A" []
        (some [SelectionNode.field "y" [] none])]) := by
  have hq : query restrictSchema (some ["A"]) =
      Except.ok (stratMap make_query (_fields restrictRoot (some ["A"]))) := by
    simp [query, restrictSchema, restrictRoot, ObjectType.fields]
  rw [hq]
  show (stratMap make_query (_fields restrictRoot (some ["A"]))).val _
  refine ⟨[SelectionNode.field "A" [] (some [SelectionNode.field "y" [] none])], ?_, rfl⟩
  rw [fields_def]
  refine stratFlatMapE_val_intro _ _
    [("A", field_nodes "A" (GQLField.mk [] (OutType.objectT nestedType)))]
    (stratTuples [stratMap2
      (fun arguments selection_set => SelectionNode.field "A" arguments selection_set)
      (stratTuples []) (fields_for_type (OutType.objectT nestedType))]) _ ?_ ?_ ?_
  · refine subset_of_fields_val_single _ _ ?_
    rw [restrict_fields_some_cons]
    simp only [restrictRoot, ObjectType.fields, compile_fields_cons, compile_fields.eq_def]
    simp
  · rw [field_nodes_no_args_ok]
    exact lists_of_field_nodes_single_ok _ _
  · refine stratTuples_val_single _ _ ?_
    refine stratMap2_val_intro _ _ _ [] (some [SelectionNode.field "y" [] none])
      List.Forall₂.nil ?_
    rw [fields_for_type_objectT]
    refine stratMap_val_intro _ _ [SelectionNode.field "y" [] none] ?_
    rw [fields_def, restrict_fields_none]
    refine stratFlatMapE_val_intro _ _
      [("y", field_nodes "y" (GQLField.mk [] (OutType.scalarT "Int")))]
      (stratTuples [stratMap2
        (fun arguments selection_set => SelectionNode.field "y" arguments selection_set)
        (stratTuples []) (fields_for_type (OutType.scalarT "Int"))]) _ ?_ ?_ ?_
    · refine subset_of_fields_val_single _ _ ?_
      simp only [nestedType, ObjectType.fields, compile_fields_cons, compile_fields.eq_def]
      simp
    · rw [field_nodes_no_args_ok]
      exact lists_of_field_nodes_single_ok _ _
    · refine stratTuples_val_single _ _ ?_
      refine stratMap2_val_intro _ _ _ [] none List.Forall₂.nil ?_
      rw [fields_for_type_scalarT]
      rfl

theorem selOk_field (n : String) (args : List (String × ValueNode))
    (ss : Option (List SelectionNode)) :
    selOk (SelectionNode.field n args ss) = selsOk ss := by
  rw [selOk.eq_def]

theorem selOk_fragment (n : String) (ss : Option (List SelectionNode)) :
    selOk (SelectionNode.inlineFragment n ss) = selsOk ss := by
  rw [selOk.eq_def]

theorem selsOk_none : selsOk none := by
  rw [selsOk.eq_def]
  trivial

theorem selsOk_some (l : List SelectionNode) :
    selsOk (some l) = (l ≠ [] ∧ selListOk l) := by
  rw [selsOk.eq_def]

mutual

theorem fields_selOk (o : ObjectType) (r : Option (List String)) :
    ∀ l, (_fields o r).val l → l ≠ [] ∧ selListOk l := by
  intro l hl
  obtain ⟨pairs, ss, hne, hmem, _, hF1, hF2⟩ := fields_val_inv o r l hl
  constructor
  · intro h0
    subst h0
    have h1 := hF1.length_eq
    have h2 := hF2.length_eq
    simp only [List.length_nil] at h2
    rw [List.length_eq_zero] at h2
    subst h2
    simp only [List.length_nil] at h1
    rw [List.length_eq_zero] at h1
    exact hne h1
  · rw [selListOk_iff]
    intro sel hsel
    obtain ⟨s, hs, hval⟩ := forall2_mem_right hF2 hsel
    obtain ⟨p, hp, hpok⟩ := forall2_mem_right hF1 hs
    have hpc : p ∈ compile_fields o.fields :=
      restrict_fields_subset _ _ p (hmem p hp)
    have hpc' : (p.1, Except.ok s) ∈ compile_fields o.fields := by
      rw [← hpok]
      exact hpc
    exact compile_fields_selOk o.fields p.1 s hpc' sel hval
termination_by (sizeOf o, 1)
decreasing_by
  apply Prod.Lex.left
  exact sizeOf_fields_lt o

theorem compile_fields_selOk (fl : List (String × GQLField)) :
    ∀ n s, (n, Except.ok s) ∈ compile_fields fl → ∀ sel, s.val sel → selOk sel := by
  match fl with
  | [] =>
    intro n s h
    rw [compile_fields.eq_def] at h
    cases h
  | (m, g) :: rest =>
    intro n s h sel hval
    rw [compile_fields_cons] at h
    rcases List.mem_cons.mp h with heq | h'
    · have hsnd : Except.ok s = field_nodes m g := congrArg Prod.snd heq
      exact field_nodes_selOk m g s hsnd.symm sel hval
    · exact compile_fields_selOk rest n s h' sel hval
termination_by (sizeOf fl, 1)
decreasing_by
  all_goals apply Prod.Lex.left
  all_goals simp
  all_goals omega

theorem field_nodes_selOk (n : String) (f : GQLField) :
    ∀ s, field_nodes n f = Except.ok s → ∀ sel, s.val sel → selOk sel := by
  intro s h sel hsel
  obtain ⟨args, ss, rfl, hss⟩ := field_nodes_ok_val n f s h sel hsel
  rw [selOk_field]
  exact fields_for_type_selOk f.type ss hss
termination_by (sizeOf f, 1)
decreasing_by
  apply Prod.Lex.left
  exact sizeOf_type_lt f

theorem fields_for_type_selOk (t : OutType) :
    ∀ oss, (fields_for_type t).val oss → selsOk oss := by
  match t with
  | OutType.listT t' =>
    intro oss h
    rw [fields_for_type_listT] at h
    exact fields_for_type_selOk t' oss h
  | OutType.nonNullT t' =>
    intro oss h
    rw [fields_for_type_nonNullT] at h
    exact fields_for_type_selOk t' oss h
  | OutType.scalarT nm =>
    intro oss h
    rw [fields_for_type_scalarT] at h
    cases h
    exact selsOk_none
  | OutType.enumT nm vs =>
    intro oss h
    rw [fields_for_type_enumT] at h
    cases h
    exact selsOk_none
  | OutType.interfaceT nm =>
    intro oss h
    rw [fields_for_type_interfaceT] at h
    cases h
    exact selsOk_none
  | OutType.objectT o =>
    intro oss h
    rw [fields_for_type_objectT] at h
    obtain ⟨l, hlv, rfl⟩ := h
    rw [selsOk_some]
    exact fields_selOk o none l hlv
  | OutType.unionT nm types =>
    intro oss h
    rw [fields_for_type_unionT] at h
    obtain ⟨frags, hfv, rfl⟩ := h
    rw [selsOk_some]
    obtain ⟨pairs, t', hpairs, hcb, htl⟩ := hfv
    cases hcb
    constructor
    · intro h0
      subst h0
      have h2 := htl.length_eq
      simp only [List.length_nil, List.length_map] at h2
      rw [List.length_eq_zero] at h2
      exact hpairs.1 h2
    · rw [selListOk_iff]
      intro sel hsel
      obtain ⟨s, hs, hval⟩ := forall2_mem_right htl hsel
      obtain ⟨p, hp, rfl⟩ := List.mem_map.mp hs
      have hpm : (p.1, p.2) ∈ compile_members types := hpairs.2.1 p hp
      exact compile_members_selOk types p.1 p.2 hpm sel hval
termination_by (sizeOf t, 1)
decreasing_by
  all_goals apply Prod.Lex.left
  all_goals simp

theorem compile_members_selOk (ml : List ObjectType) :
    ∀ n s, (n, s) ∈ compile_members ml → ∀ sel, s.val sel → selOk sel := by
  match ml with
  | [] =>
    intro n s h
    rw [compile_members.eq_def] at h
    cases h
  | o :: rest =>
    intro n s h sel hval
    rw [compile_members_cons] at h
    rcases List.mem_cons.mp h with heq | h'
    · have hsnd : s = inline_fragment o := congrArg Prod.snd heq
      exact inline_fragment_selOk o sel (hsnd ▸ hval)
    · exact compile_members_selOk rest n s h' sel hval
termination_by (sizeOf ml, 1)
decreasing_by
  all_goals apply Prod.Lex.left
  all_goals simp
  all_goals omega

theorem inline_fragment_selOk (o : ObjectType) :
    ∀ sel, (inline_fragment o).val sel → selOk sel := by
  intro sel h
  rw [inline_fragment_def] at h
  obtain ⟨sels, hsv, rfl⟩ := h
  rw [selOk_fragment, selsOk_some]
  exact fields_selOk o none sels hsv
termination_by (sizeOf o, 2)
decreasing_by
  apply Prod.Lex.right
  omega

end

theorem query_okVal_inv (qt : ObjectType) (r : Option (List String)) (doc : DocumentNode)
    (h : okVal (query ⟨some qt⟩ r) doc) :
    ∃ r' sels, (_fields qt r').val sels ∧ doc = make_query sels := by
  cases r with
  | none =>
    simp only [query, okVal, stratMap] at h
    obtain ⟨sels, hsels, rfl⟩ := h
    exact ⟨none, sels, hsels, rfl⟩
  | some fs =>
    by_cases h1 : fs = []
    · subst h1
      simp [query, okVal] at h
    · simp only [query] at h
      rw [if_neg h1] at h
      by_cases h2 : fs.filter (fun f => !((qt.fields.map Prod.fst).contains f)) ≠ []
      · rw [if_pos h2] at h
        simp [okVal] at h
      · rw [if_neg h2] at h
        simp only [okVal, stratMap] at h
        obtain ⟨sels, hsels, rfl⟩ := h
        exact ⟨some fs, sels, hsels, rfl⟩

theorem tiny_example_val :
    okVal (query ⟨some tinyRoot⟩ none) (make_query [SelectionNode.field "a" [] none]) := by
  show (stratMap make_query (_fields tinyRoot none)).val _
  refine ⟨[SelectionNode.field "a" [] none], ?_, rfl⟩
  rw [fields_def, restrict_fields_none]
  refine stratFlatMapE_val_intro _ _
    [("a", field_nodes "a" (GQLField.mk [] (OutType.scalarT "Int")))]
    (stratTuples [stratMap2
      (fun arguments selection_set => SelectionNode.field "a" arguments selection_set)
      (stratTuples []) (fields_for_type (OutType.scalarT "Int"))]) _ ?_ ?_ ?_
  · refine subset_of_fields_val_single _ _ ?_
    simp only [tinyRoot, ObjectType.fields, compile_fields_cons, compile_fields.eq_def]
    simp
  · rw [field_nodes_no_args_ok]
    exact lists_of_field_nodes_single_ok _ _
  · refine stratTuples_val_single _ _ ?_
    refine stratMap2_val_intro _ _ _ [] none List.Forall₂.nil ?_
    rw [fields_for_type_scalarT]
    rfl

/-! Claim theorems. -/

/-- C2: the query entry point raises a configuration error synchronously, in
exactly these cases: missing query root type; `fields` given but empty;
`fields` containing names absent from the root type, with the message
enumerating every unknown name; in all other cases a strategy is
returned. -/
theorem C2_query_configuration_errors :
    (∀ fields, query ⟨none⟩ fields =
      Except.error (Err.valueError "Query type is not defined in the schema")) ∧
    (∀ qt : ObjectType, query ⟨some qt⟩ (some []) =
      Except.error (Err.valueError "If you pass `fields`, it should not be empty")) ∧
    (∀ (qt : ObjectType) (fs : List String), fs ≠ [] →
      fs.filter (fun f => !((qt.fields.map Prod.fst).contains f)) ≠ [] →
      query ⟨some qt⟩ (some fs) =
        Except.error (Err.valueError ("Unknown fields: " ++ String.intercalate ", "
          (fs.filter (fun f => !((qt.fields.map Prod.fst).contains f)))))) ∧
    (∀ qt : ObjectType, (query ⟨some qt⟩ none).isOk = true) ∧
    (∀ (qt : ObjectType) (fs : List String), fs ≠ [] →
      (∀ f ∈ fs, f ∈ qt.fields.map Prod.fst) → (query ⟨some qt⟩ (some fs)).isOk = true) := by
  refine ⟨fun fields => rfl, fun qt => by simp [query], ?_, ?_, ?_⟩
  · intro qt fs h1 h2
    simp only [query]
    rw [if_neg h1, if_pos h2]
  · intro qt
    simp [query, Except.isOk, Except.toBool]
  · intro qt fs h1 h2
    have hfilter : fs.filter (fun f => !((qt.fields.map Prod.fst).contains f)) = [] := by
      rw [List.filter_eq_nil_iff]
      intro f hf
      simpa using h2 f hf
    simp only [query]
    rw [if_neg h1, hfilter]
    simp [Except.isOk, Except.toBool]

/-- Witness for C2 on concrete inputs: a schema without a `Query` type, an
empty restriction, the unknown name `wrong`, and valid restrictions. -/
theorem C2_query_configuration_errors_witness :
    (query ⟨none⟩ none =
      Except.error (Err.valueError "Query type is not defined in the schema")) ∧
    (query ⟨some tinyRoot⟩ (some []) =
      Except.error (Err.valueError "If you pass `fields`, it should not be empty")) ∧
    (query ⟨some tinyRoot⟩ (some ["wrong"]) =
      Except.error (Err.valueError "Unknown fields: wrong")) ∧
    ((query ⟨some tinyRoot⟩ none).isOk = true) ∧
    ((query ⟨some tinyRoot⟩ (some ["a"])).isOk = true) := by
  refine ⟨C2_query_configuration_errors.1 none,
    C2_query_configuration_errors.2.1 tinyRoot, ?_,
    C2_query_configuration_errors.2.2.2.1 tinyRoot, ?_⟩
  · have h := C2_query_configuration_errors.2.2.1 tinyRoot ["wrong"] (by simp)
      (by simp [tinyRoot, ObjectType.fields])
    simpa [tinyRoot, ObjectType.fields, String.intercalate] using h
  · exact C2_query_configuration_errors.2.2.2.2 tinyRoot ["a"] (by simp)
      (by simp [tinyRoot, ObjectType.fields])

/-- C7: the supported named scalars are exactly Int, Float, String, ID and
Boolean; any other name raises the unsupported-scalar `TypeError`; and ID
values alternate between a String-shaped and an Int-shaped literal. -/
theorem C7_supported_scalars :
    (∀ (name : String) (nullable : Bool),
      (primitives.scalar name nullable).isOk = true ↔ name ∈ supported_scalar_names) ∧
    (∀ (name : String) (nullable : Bool), name ∉ supported_scalar_names →
      primitives.scalar name nullable =
        Except.error (Err.typeError "Custom scalar types are not supported")) ∧
    (∀ v, (primitives.id_ false).val v ↔
      ((∃ cs, v = ValueNode.stringValue cs ∧ ∀ c ∈ cs, allowedCodePoint c) ∨
       (∃ n, v = ValueNode.intValue n ∧
         primitives.MIN_INT ≤ n ∧ n ≤ primitives.MAX_INT))) := by
  refine ⟨?_, ?_, ?_⟩
  · intro name nullable
    simp only [primitives.scalar, supported_scalar_names]
    split_ifs with h1 h2 h3 h4 h5 <;> simp_all [Except.isOk, Except.toBool]
  · intro name nullable h
    simp only [supported_scalar_names, List.mem_cons, List.mem_singleton] at h
    push_neg at h
    simp [primitives.scalar, h.1, h.2.1, h.2.2.1, h.2.2.2.1, h.2.2.2.2]
  · intro v
    simp only [primitives.id_, primitives.string, primitives.int_, primitives.maybe_null,
      Bool.false_eq_true, if_false, stratOr, stratMap, stratLists, stratCharacters, stratInts]
    constructor
    · rintro (⟨a, ha, rfl⟩ | ⟨n, hn, rfl⟩)
      · exact Or.inl ⟨a, rfl, ha⟩
      · exact Or.inr ⟨n, rfl, hn⟩
    · rintro (⟨cs, rfl, hcs⟩ | ⟨n, rfl, hn⟩)
      · exact Or.inl ⟨cs, hcs, rfl⟩
      · exact Or.inr ⟨n, hn, rfl⟩

/-- Witness for C7 on concrete inputs: `Int` is supported, `Date` raises,
and both ID shapes are drawable. -/
theorem C7_supported_scalars_witness :
    ((primitives.scalar "Int" true).isOk = true) ∧
    (primitives.scalar "Date" true =
      Except.error (Err.typeError "Custom scalar types are not supported")) ∧
    (primitives.id_ false).val (ValueNode.stringValue []) ∧
    (primitives.id_ false).val (ValueNode.intValue 0) := by
  refine ⟨(C7_supported_scalars.1 "Int" true).mpr (by simp [supported_scalar_names]),
    C7_supported_scalars.2.1 "Date" true (by simp [supported_scalar_names]), ?_, ?_⟩
  · exact (C7_supported_scalars.2.2 (ValueNode.stringValue [])).mpr
      (Or.inl ⟨[], rfl, by simp⟩)
  · exact (C7_supported_scalars.2.2 (ValueNode.intValue 0)).mpr
      (Or.inr ⟨0, rfl, by simp [primitives.MIN_INT, primitives.MAX_INT]⟩)

/-- C8: every String-scalar literal the `string` strategy can draw consists
only of code points at most U+FFFF that are not surrogate code points. -/
theorem C8_string_no_surrogates :
    ∀ (nullable : Bool) (v : ValueNode) (cs : List Nat),
      (primitives.string nullable).val v → v = ValueNode.stringValue cs →
      ∀ c ∈ cs, c ≤ 0xFFFF ∧ ¬ (0xD800 ≤ c ∧ c ≤ 0xDFFF) := by
  intro nullable v cs hv heq c hc
  subst heq
  cases nullable with
  | false =>
    simp only [primitives.string, primitives.maybe_null, Bool.false_eq_true, if_false,
      stratMap, stratLists, stratCharacters] at hv
    obtain ⟨a, ha, haeq⟩ := hv
    cases haeq
    exact ha c hc
  | true =>
    simp only [primitives.string, primitives.maybe_null, if_true, stratOr, stratMap,
      stratLists, stratCharacters, stratJust] at hv
    rcases hv with ⟨a, ha, haeq⟩ | hnull
    · cases haeq
      exact ha c hc
    · cases hnull

/-- Witness for C8: the one-character string `A` (code point 65) is
drawable and its code point is a non-surrogate BMP code point. -/
theorem C8_string_no_surrogates_witness :
    (primitives.string true).val (ValueNode.stringValue [65]) ∧
    (65 ≤ 0xFFFF ∧ ¬ ((0xD800 : Nat) ≤ 65 ∧ (65 : Nat) ≤ 0xDFFF)) := by
  have hval : (primitives.string true).val (ValueNode.stringValue [65]) := by
    refine Or.inl ⟨[65], ?_, rfl⟩
    intro c hc
    rcases List.mem_singleton.mp hc with rfl
    exact ⟨by omega, by omega⟩
  exact ⟨hval, C8_string_no_surrogates true (ValueNode.stringValue [65]) [65] hval rfl 65
    (List.mem_singleton.mpr rfl)⟩

/-- C9: resolving the same source text twice through the schema cache
returns the same parsed graph instance and leaves the cache unchanged on the
second call; entries are never evicted. -/
theorem C9_cached_build_schema_same_instance :
    ∀ (source : String) (cache : SchemaCache),
      (cached_build_schema source (cached_build_schema source cache).2).1 =
        (cached_build_schema source cache).1 ∧
      (cached_build_schema source (cached_build_schema source cache).2).2 =
        (cached_build_schema source cache).2 ∧
      cache.entries ⊆ (cached_build_schema source cache).2.entries := by
  intro source cache
  cases h : cache.entries.lookup source with
  | some g =>
    simp [cached_build_schema, h]
  | none =>
    simp [cached_build_schema, h, List.subset_cons_self]

/-- Witness for C9 at a concrete source text and the empty cache. -/
theorem C9_cached_build_schema_same_instance_witness :
    (cached_build_schema "type Query" (cached_build_schema "type Query" ⟨[], 0⟩).2).1 =
      (cached_build_schema "type Query" ⟨[], 0⟩).1 ∧
    (cached_build_schema "type Query" (cached_build_schema "type Query" ⟨[], 0⟩).2).2 =
      (cached_build_schema "type Query" ⟨[], 0⟩).2 ∧
    SchemaCache.entries ⟨[], 0⟩ ⊆ (cached_build_schema "type Query" ⟨[], 0⟩).2.entries :=
  C9_cached_build_schema_same_instance "type Query" ⟨[], 0⟩

/-- C3 counterexample: for the nullable list input type `[Int]` the claimed
alternation with a constant Null value node fails — the null branch draws a
`ListValueNode` whose `values` payload is absent, and a `NullValueNode` is
never drawn for the list position. -/
theorem C3_counterexample :
    okVal (value_nodes (GQLInputType.list (GQLInputType.scalar "Int")))
      (ValueNode.listValue none) ∧
    ¬ okVal (value_nodes (GQLInputType.list (GQLInputType.scalar "Int")))
      ValueNode.nullValue := by
  have h : value_nodes (GQLInputType.list (GQLInputType.scalar "Int")) =
      Except.ok (stratMap (fun values => ValueNode.listValue values)
        (stratOr (stratMap some (stratLists (primitives.int_ true))) (stratJust none))) := by
    rw [value_nodes_list, lists_def, value_nodes_scalar]
    simp [primitives.scalar, Except.map]
  rw [h]
  constructor
  · exact ⟨none, Or.inr rfl, rfl⟩
  · rintro ⟨a, _, heq⟩
    cases heq

/-- C3 amended: when `nullable` is true the synthesized strategy draws a
Null value node only for scalar and enum kinds; for list and input-object
kinds the nullable branch instead draws a `ListValueNode` / `ObjectValueNode`
with an absent payload and a Null value node is never drawn; when the type is
non-null no null-like value (Null node or absent-payload node) is drawn. -/
theorem C3_amended :
    (∀ (name : String) (s : Strat ValueNode),
      value_nodes (GQLInputType.scalar name) = Except.ok s → s.val ValueNode.nullValue) ∧
    (∀ (n : String) (values : List String) (s : Strat ValueNode),
      value_nodes (GQLInputType.enum n values) = Except.ok s → s.val ValueNode.nullValue) ∧
    (∀ (t : GQLInputType) (s : Strat ValueNode),
      value_nodes (GQLInputType.list t) = Except.ok s →
        s.val (ValueNode.listValue none) ∧ ¬ s.val ValueNode.nullValue) ∧
    (∀ (n : String) (fs : List (String × GQLInputType)) (s : Strat ValueNode),
      value_nodes (GQLInputType.inputObject n fs) = Except.ok s →
        s.val (ValueNode.objectValue none) ∧ ¬ s.val ValueNode.nullValue) ∧
    (∀ (t : GQLInputType) (s : Strat ValueNode),
      value_nodes (GQLInputType.nonNull t) = Except.ok s →
        ¬ s.val ValueNode.nullValue ∧ ¬ s.val (ValueNode.listValue none) ∧
          ¬ s.val (ValueNode.objectValue none)) := by
  refine ⟨?_, ?_, ?_, ?_, ?_⟩
  · intro name s h
    rw [value_nodes_scalar] at h
    simp only [primitives.scalar] at h
    split_ifs at h <;> cases h <;>
      simp [primitives.int_, primitives.float_, primitives.string, primitives.id_,
        primitives.boolean, primitives.maybe_null, stratOr, stratJust]
  · intro n values s h
    rw [value_nodes_enum] at h
    cases h
    simp [primitives.enum, primitives.maybe_null, stratOr, stratJust]
  · intro t s h
    rw [value_nodes_list, lists_def] at h
    rw [except_map_ok] at h
    obtain ⟨elem, _, rfl⟩ := h
    constructor
    · exact ⟨none, Or.inr rfl, rfl⟩
    · rintro ⟨a, _, heq⟩
      cases heq
  · intro n fs s h
    rw [value_nodes_inputObject] at h
    cases h
    rw [objects_def]
    constructor
    · exact ⟨none, Or.inr rfl, rfl⟩
    · rintro ⟨a, _, heq⟩
      cases heq
  · intro t s h
    rw [value_nodes_nonNull] at h
    cases t with
    | scalar name =>
      rw [value_nodes_unwrapped_scalar] at h
      simp only [primitives.scalar] at h
      split_ifs at h <;> cases h <;>
        simp [primitives.int_, primitives.float_, primitives.string, primitives.id_,
          primitives.boolean, primitives.maybe_null, stratOr, stratMap, stratInts,
          stratBooleans, stratFiniteFloats, stratLists, stratCharacters]
    | enum n values =>
      rw [value_nodes_unwrapped_enum] at h
      cases h
      simp [primitives.enum, primitives.maybe_null, stratMap, sampledFrom]
    | list t' =>
      rw [value_nodes_unwrapped_list, lists_def] at h
      rw [except_map_ok] at h
      obtain ⟨elem, _, rfl⟩ := h
      refine ⟨?_, ?_, ?_⟩ <;> simp only [Bool.false_eq_true, if_false]
      · rintro ⟨a, _, heq⟩
        cases heq
      · rintro ⟨a, ⟨l, _, hla⟩, heq⟩
        cases heq
        cases hla
      · rintro ⟨a, _, heq⟩
        cases heq
    | inputObject n fs =>
      rw [value_nodes_unwrapped_inputObject] at h
      cases h
      rw [objects_def]
      refine ⟨?_, ?_, ?_⟩ <;> simp only [Bool.false_eq_true, if_false]
      · rintro ⟨a, _, heq⟩
        cases heq
      · rintro ⟨a, _, heq⟩
        cases heq
      · rintro ⟨a, ⟨l, _, hla⟩, heq⟩
        cases heq
        cases hla
    | nonNull t' =>
      rw [value_nodes_unwrapped_nonNull] at h
      cases h

/-- Witness for C3 amended at concrete inputs: a nullable `Int` scalar, a
nullable enum, a nullable `[Int]` list, a nullable input object, and a
non-null `Int`. -/
theorem C3_amended_witness :
    (primitives.int_ true).val ValueNode.nullValue ∧
    (primitives.enum ["RED"] true).val ValueNode.nullValue ∧
    ((objects [] true).val (ValueNode.objectValue none) ∧
      ¬ (objects [] true).val ValueNode.nullValue) ∧
    (¬ (primitives.int_ false).val ValueNode.nullValue ∧
      ¬ (primitives.int_ false).val (ValueNode.listValue none) ∧
      ¬ (primitives.int_ false).val (ValueNode.objectValue none)) := by
  have hint : value_nodes (GQLInputType.scalar "Int") = Except.ok (primitives.int_ true) := by
    rw [value_nodes_scalar]
    simp [primitives.scalar]
  have henum : value_nodes (GQLInputType.enum "Color" ["RED"]) =
      Except.ok (primitives.enum ["RED"] true) := value_nodes_enum "Color" ["RED"]
  have hobj : value_nodes (GQLInputType.inputObject "I" []) = Except.ok (objects [] true) :=
    value_nodes_inputObject "I" []
  have hnn : value_nodes (GQLInputType.nonNull (GQLInputType.scalar "Int")) =
      Except.ok (primitives.int_ false) := by
    rw [value_nodes_nonNull, value_nodes_unwrapped_scalar]
    simp [primitives.scalar]
  exact ⟨C3_amended.1 "Int" (primitives.int_ true) hint,
    C3_amended.2.1 "Color" ["RED"] (primitives.enum ["RED"] true) henum,
    C3_amended.2.2.2.1 "I" [] (objects [] true) hobj,
    C3_amended.2.2.2.2 (GQLInputType.scalar "Int") (primitives.int_ false) hnn⟩

/-- C4: a field argument whose leaf type is an unsupported custom scalar
makes `list_of_arguments`, and hence the enclosing field node, fail with the
non-nullable-custom-scalar error when the argument is non-null; when the
argument is nullable it is silently omitted — no argument node named after
it (with a Null literal or any other value) ever appears in a drawn
argument list. -/
theorem C4_unsupported_scalar_arguments :
    (∀ (args : List (String × GQLInputType)) (n c : String),
      (n, GQLInputType.nonNull (GQLInputType.scalar c)) ∈ args → c ∉ supported_scalar_names →
      list_of_arguments args =
        Except.error
          (Err.typeError "Non-nullable custom scalar types are not supported as arguments")) ∧
    (∀ (name : String) (f : GQLField) (n c : String),
      (n, GQLInputType.nonNull (GQLInputType.scalar c)) ∈ f.args → c ∉ supported_scalar_names →
      field_nodes name f =
        Except.error
          (Err.typeError "Non-nullable custom scalar types are not supported as arguments")) ∧
    (∀ (args : List (String × GQLInputType)) (n c : String)
      (s : Strat (List (String × ValueNode))),
      (n, GQLInputType.scalar c) ∈ args → c ∉ supported_scalar_names →
      (args.map Prod.fst).Nodup → list_of_arguments args = Except.ok s →
      ∀ l, s.val l → ∀ v, (n, v) ∉ l) := by
  refine ⟨?_, ?_, ?_⟩
  · intro args n c hmem hc
    unfold list_of_arguments
    rw [argument_strats_error_of_nonNull_custom args n c hmem hc]
    rfl
  · intro name f n c hmem hc
    rw [field_nodes_def]
    unfold list_of_arguments
    rw [argument_strats_error_of_nonNull_custom f.args n c hmem hc]
    rfl
  · intro args n c s hmem hc hnd hok l hl v hvl
    unfold list_of_arguments at hok
    rw [except_map_ok] at hok
    obtain ⟨ss, hss, rfl⟩ := hok
    obtain ⟨strat, hstrat, hval⟩ := forall2_mem_right hl hvl
    obtain ⟨t, ht, htok⟩ := argument_strats_ok_names args ss hss strat hstrat (n, v) hval
    have : t = GQLInputType.scalar c := nodup_keys_unique args hnd n t (GQLInputType.scalar c) ht hmem
    rw [this, argument_values_nullable_custom c hc] at htok
    simp [Except.isOk, Except.toBool] at htok

/-- Witness for C4 at the spec's `Date` example: the non-null `Date`
argument fails construction of the argument list and of the field node; the
nullable `Date` argument is omitted from the drawn argument list. -/
theorem C4_unsupported_scalar_arguments_witness :
    (list_of_arguments [("created", GQLInputType.nonNull (GQLInputType.scalar "Date"))] =
      Except.error
        (Err.typeError "Non-nullable custom scalar types are not supported as arguments")) ∧
    (field_nodes "getByDate" getByDateField =
      Except.error
        (Err.typeError "Non-nullable custom scalar types are not supported as arguments")) ∧
    (("created", ValueNode.nullValue) ∉
      [(("x" : String), ValueNode.nullValue)]) := by
  have hDate : "Date" ∉ supported_scalar_names := by simp [supported_scalar_names]
  refine ⟨C4_unsupported_scalar_arguments.1 _ "created" "Date" (by simp) hDate,
    C4_unsupported_scalar_arguments.2.1 "getByDate" getByDateField "created" "Date"
      (by simp [getByDateField, GQLField.args]) hDate, ?_⟩
  have hargs : list_of_arguments
      [("created", GQLInputType.scalar "Date"), ("x", GQLInputType.scalar "Int")] =
      Except.ok (stratTuples [stratMap (fun value => ("x", value)) (primitives.int_ true)]) := by
    unfold list_of_arguments
    rw [argument_strats_cons, argument_values_nullable_custom "Date" hDate]
    rw [argument_strats_cons]
    have hInt : argument_values (GQLInputType.scalar "Int") = Except.ok (primitives.int_ true) := by
      unfold argument_values
      rw [value_nodes_scalar]
      simp [primitives.scalar]
    rw [hInt, argument_strats_nil]
    simp [isNonNull, Except.map]
  have hval : (stratTuples [stratMap (fun value => ("x", value)) (primitives.int_ true)]).val
      [(("x" : String), ValueNode.nullValue)] := by
    refine stratTuples_val_single _ _ ⟨ValueNode.nullValue, ?_, rfl⟩
    exact Or.inr rfl
  exact C4_unsupported_scalar_arguments.2.2
    [("created", GQLInputType.scalar "Date"), ("x", GQLInputType.scalar "Int")]
    "created" "Date" _ (by simp) hDate (by simp) hargs
    [(("x" : String), ValueNode.nullValue)] hval ValueNode.nullValue

/-- C10: when every declared argument of a field has a supported type, the
argument-list strategy is constructed successfully and every drawn argument
list carries exactly one argument node per declared argument, in declaration
order; nullable supported scalar and enum arguments can draw an explicit
Null literal (they are never omitted). -/
theorem C10_supported_arguments_in_declaration_order :
    (∀ (args : List (String × GQLInputType)),
      (∀ p ∈ args, (argument_values p.2).isOk = true) →
      (list_of_arguments args).isOk = true) ∧
    (∀ (args : List (String × GQLInputType)) (s : Strat (List (String × ValueNode))),
      (∀ p ∈ args, (argument_values p.2).isOk = true) →
      list_of_arguments args = Except.ok s →
      ∀ l, s.val l → l.map Prod.fst = args.map Prod.fst) ∧
    (∀ c, c ∈ supported_scalar_names →
      okVal (argument_values (GQLInputType.scalar c)) ValueNode.nullValue) ∧
    (∀ (n : String) (values : List String),
      okVal (argument_values (GQLInputType.enum n values)) ValueNode.nullValue) := by
  refine ⟨?_, ?_, ?_, ?_⟩
  · intro args hall
    obtain ⟨ss, hss, _⟩ := argument_strats_all_ok args hall
    unfold list_of_arguments
    rw [hss]
    rfl
  · intro args s hall hok l hl
    obtain ⟨ss, hss, hF⟩ := argument_strats_all_ok args hall
    unfold list_of_arguments at hok
    rw [hss] at hok
    rw [except_map_ok] at hok
    obtain ⟨ss', hss', rfl⟩ := hok
    cases hss'
    exact names_of_draw args ss l hF hl
  · intro c hc
    unfold argument_values
    rw [value_nodes_scalar]
    simp only [supported_scalar_names, List.mem_cons, List.not_mem_nil, or_false] at hc
    rcases hc with rfl | rfl | rfl | rfl | rfl <;>
      simp [primitives.scalar, okVal, primitives.int_, primitives.float_, primitives.string,
        primitives.id_, primitives.boolean, primitives.maybe_null, stratOr, stratJust]
  · intro n values
    unfold argument_values
    rw [value_nodes_enum]
    simp [okVal, primitives.enum, primitives.maybe_null, stratOr, stratJust]

/-- Witness for C10 at a field with the two supported arguments `x: Int`
and `y: Boolean`: construction succeeds, a draw assigning Null to both
carries exactly the declared names in order, and Null literals are drawable
for `Int` and for an enum. -/
theorem C10_supported_arguments_in_declaration_order_witness :
    ((list_of_arguments
      [("x", GQLInputType.scalar "Int"), ("y", GQLInputType.scalar "Boolean")]).isOk = true) ∧
    ([(("x" : String), ValueNode.nullValue), (("y" : String), ValueNode.nullValue)].map Prod.fst =
      [("x", GQLInputType.scalar "Int"), ("y", GQLInputType.scalar "Boolean")].map Prod.fst) ∧
    okVal (argument_values (GQLInputType.scalar "Int")) ValueNode.nullValue ∧
    okVal (argument_values (GQLInputType.enum "Color" ["RED"])) ValueNode.nullValue := by
  have hInt : argument_values (GQLInputType.scalar "Int") = Except.ok (primitives.int_ true) := by
    unfold argument_values
    rw [value_nodes_scalar]
    simp [primitives.scalar]
  have hBool : argument_values (GQLInputType.scalar "Boolean") =
      Except.ok (primitives.boolean true) := by
    unfold argument_values
    rw [value_nodes_scalar]
    simp [primitives.scalar]
  have hall : ∀ p ∈ [(("x" : String), GQLInputType.scalar "Int"),
      (("y" : String), GQLInputType.scalar "Boolean")], (argument_values p.2).isOk = true := by
    intro p hp
    rcases List.mem_cons.mp hp with rfl | hp'
    · rw [hInt]; rfl
    · rcases List.mem_singleton.mp hp' with rfl
      rw [hBool]; rfl
  have hargs : list_of_arguments
      [("x", GQLInputType.scalar "Int"), ("y", GQLInputType.scalar "Boolean")] =
      Except.ok (stratTuples [stratMap (fun value => ("x", value)) (primitives.int_ true),
        stratMap (fun value => ("y", value)) (primitives.boolean true)]) := by
    unfold list_of_arguments
    rw [argument_strats_cons, hInt, argument_strats_cons, hBool, argument_strats_nil]
    simp [Except.map]
  have hval : (stratTuples [stratMap (fun value => ("x", value)) (primitives.int_ true),
      stratMap (fun value => ("y", value)) (primitives.boolean true)]).val
      [(("x" : String), ValueNode.nullValue), (("y" : String), ValueNode.nullValue)] := by
    refine List.Forall₂.cons ⟨ValueNode.nullValue, Or.inr rfl, rfl⟩ ?_
    exact List.Forall₂.cons ⟨ValueNode.nullValue, Or.inr rfl, rfl⟩ List.Forall₂.nil
  refine ⟨C10_supported_arguments_in_declaration_order.1 _ hall,
    C10_supported_arguments_in_declaration_order.2.1 _ _ hall hargs _ hval,
    C10_supported_arguments_in_declaration_order.2.2.1 "Int" (by simp [supported_scalar_names]),
    C10_supported_arguments_in_declaration_order.2.2.2 "Color" ["RED"]⟩

/-- C1 counterexample: for the schema whose root field `getByDate` has the
required custom-scalar argument `created: Date!`, the top-level entry point
returns a strategy without raising, and the unsupported-scalar error is
instead a sampling-time error of the returned strategy — the claim's timing
(raised eagerly by the entry point, never during sampling) fails. -/
theorem C1_counterexample :
    (query dateSchema none).isOk = true ∧
    okErr (query dateSchema none)
      (Err.typeError "Non-nullable custom scalar types are not supported as arguments") := by
  constructor
  · rfl
  · show okErr (query ⟨some dateRoot⟩ none) _
    refine query_sampling_error_of_bad_field dateRoot "getByDate" _ ?_
    have hfe : field_nodes "getByDate" getByDateField =
        Except.error
          (Err.typeError "Non-nullable custom scalar types are not supported as arguments") := by
      rw [field_nodes_def]
      unfold list_of_arguments
      rw [argument_strats_error_of_nonNull_custom getByDateField.args "created" "Date"
        (by simp [getByDateField, GQLField.args]) (by simp [supported_scalar_names])]
      rfl
    have := compile_fields_mem dateRoot.fields "getByDate" getByDateField
      (by simp [dateRoot, ObjectType.fields])
    rw [hfe] at this
    exact this

/-- C1 amended: the unrestricted entry point never raises the
unsupported-scalar error itself (it always returns a strategy), and for a
schema with a root field having a required custom-scalar argument the error
is raised during sampling — it is a sampling-time error of the returned
strategy, surfacing on draws whose field subset contains the offending
field. -/
theorem C1_amended :
    (∀ qt : ObjectType, (query ⟨some qt⟩ none).isOk = true) ∧
    (∀ (qt : ObjectType) (n m c : String) (f : GQLField),
      (n, f) ∈ qt.fields →
      (m, GQLInputType.nonNull (GQLInputType.scalar c)) ∈ f.args →
      c ∉ supported_scalar_names →
      okErr (query ⟨some qt⟩ none)
        (Err.typeError "Non-nullable custom scalar types are not supported as arguments")) := by
  constructor
  · intro qt
    rfl
  · intro qt n m c f hf harg hc
    refine query_sampling_error_of_bad_field qt n _ ?_
    have hfe : field_nodes n f =
        Except.error
          (Err.typeError "Non-nullable custom scalar types are not supported as arguments") := by
      rw [field_nodes_def]
      unfold list_of_arguments
      rw [argument_strats_error_of_nonNull_custom f.args m c harg hc]
      rfl
    have := compile_fields_mem qt.fields n f hf
    rw [hfe] at this
    exact this

/-- Witness for C1 amended at the `Date` schema root. -/
theorem C1_amended_witness :
    ((query ⟨some dateRoot⟩ none).isOk = true) ∧
    okErr (query ⟨some dateRoot⟩ none)
      (Err.typeError "Non-nullable custom scalar types are not supported as arguments") :=
  ⟨C1_amended.1 dateRoot,
    C1_amended.2 dateRoot "getByDate" "created" "Date" getByDateField
      (by simp [dateRoot, ObjectType.fields])
      (by simp [getByDateField, GQLField.args])
      (by simp [supported_scalar_names])⟩

/-- C5: with a non-empty `fields` restriction, every drawn document's root
selection contains only field nodes whose names are in the restriction; and
the restriction applies only at the root — a document whose root selects `A`
(the only allowed root name) with a nested selection of the unrestricted
nested field `y` is drawable. -/
theorem C5_root_fields_restriction :
    (∀ (qt : ObjectType) (fs : List String) (doc : DocumentNode),
      okVal (query ⟨some qt⟩ (some fs)) doc →
      ∀ d ∈ doc.definitions, ∀ l, d.selectionSet = some l →
        ∀ sel ∈ l, ∃ name args ss, sel = SelectionNode.field name args ss ∧ name ∈ fs) ∧
    okVal (query restrictSchema (some ["A"]))
      (make_query [SelectionNode.field "A" []
        (some [SelectionNode.field "y" [] none])]) := by
  refine ⟨?_, nested_unrestricted_example_val⟩
  intro qt fs doc h d hd l hl sel hsel
  by_cases h1 : fs = []
  · subst h1
    simp [query, okVal] at h
  · simp only [query] at h
    rw [if_neg h1] at h
    by_cases h2 : fs.filter (fun f => !((qt.fields.map Prod.fst).contains f)) ≠ []
    · rw [if_pos h2] at h
      simp [okVal] at h
    · rw [if_neg h2] at h
      simp only [okVal, stratMap] at h
      obtain ⟨sels, hsels, rfl⟩ := h
      simp only [make_query, List.mem_singleton] at hd
      subst hd
      simp only at hl
      cases hl
      obtain ⟨pairs, ss, _, hmem, _, hF1, hF2⟩ := fields_val_inv qt (some fs) l hsels
      obtain ⟨s, hs, hval⟩ := forall2_mem_right hF2 hsel
      obtain ⟨p, hp, hpok⟩ := forall2_mem_right hF1 hs
      have hpr := hmem p hp
      obtain ⟨f0, fs0, rfl⟩ := List.exists_cons_of_ne_nil h1
      have hname : p.1 ∈ f0 :: fs0 := restrict_fields_name _ f0 fs0 p hpr
      obtain ⟨g, _, he⟩ := compile_fields_mem_inv qt.fields p
        (restrict_fields_subset _ _ p hpr)
      rw [he] at hpok
      obtain ⟨args, ss', rfl, _⟩ := field_nodes_ok_val p.1 g s hpok sel hval
      exact ⟨p.1, args, ss', rfl, hname⟩

/-- Witness for C5 at the two-field schema restricted to `A`: the drawable
document's only root selection is a field named within the restriction. -/
theorem C5_root_fields_restriction_witness :
    ∃ name args ss,
      SelectionNode.field "A" [] (some [SelectionNode.field "y" [] none]) =
        SelectionNode.field name args ss ∧ name ∈ ["A"] := by
  refine C5_root_fields_restriction.1 restrictRoot ["A"]
    (make_query [SelectionNode.field "A" [] (some [SelectionNode.field "y" [] none])])
    C5_root_fields_restriction.2
    ⟨OperationType.query, some [SelectionNode.field "A" []
      (some [SelectionNode.field "y" [] none])]⟩
    (by simp [make_query]) _ rfl _ (by simp)

/-- C6: every drawn document has exactly one operation definition (of kind
query) whose selection-set payload is present and non-empty, with every
nested selection set well-formed (`selListOk`: present payloads are
non-empty, recursively); and the candidate field pairs are sorted by name —
`subset_of_fields` draws from the name-sorted permutation of its input. -/
theorem C6_document_invariants :
    (∀ (qt : ObjectType) (r : Option (List String)) (doc : DocumentNode),
      okVal (query ⟨some qt⟩ r) doc →
      doc.definitions.length = 1 ∧
      ∀ d ∈ doc.definitions, d.operation = OperationType.query ∧
        ∃ l, d.selectionSet = some l ∧ l ≠ [] ∧ selListOk l) ∧
    (∀ (pairs : List (String × Except Err (Strat SelectionNode))),
      (sortPairs pairs).Pairwise (fun a b => a.1 ≤ b.1) ∧
      (sortPairs pairs).Perm pairs ∧
      subset_of_fields pairs =
        stratNonemptyUniqueBy (sampledFrom (sortPairs pairs)) Prod.fst) := by
  constructor
  · intro qt r doc h
    obtain ⟨r', sels, hsels, rfl⟩ := query_okVal_inv qt r doc h
    have hok := fields_selOk qt r' sels hsels
    refine ⟨rfl, ?_⟩
    intro d hd
    simp only [make_query, List.mem_singleton] at hd
    subst hd
    exact ⟨rfl, sels, rfl, hok.1, hok.2⟩
  · intro pairs
    exact ⟨sortPairs_sorted pairs, sortPairs_perm pairs, rfl⟩

/-- Witness for C6 at the one-field schema and a two-entry candidate list in
reverse name order. -/
theorem C6_document_invariants_witness :
    ((make_query [SelectionNode.field "a" [] none]).definitions.length = 1) ∧
    ((⟨OperationType.query, some [SelectionNode.field "a" [] none]⟩ :
        OperationDefinitionNode).operation = OperationType.query ∧
      ∃ l, (⟨OperationType.query, some [SelectionNode.field "a" [] none]⟩ :
        OperationDefinitionNode).selectionSet = some l ∧ l ≠ [] ∧ selListOk l) ∧
    ((sortPairs [(("b" : String),
        (Except.error (Err.typeError "x") : Except Err (Strat SelectionNode))),
        (("a" : String), Except.error (Err.typeError "y"))]).Pairwise
      (fun a b => a.1 ≤ b.1)) := by
  have h := C6_document_invariants.1 tinyRoot none
    (make_query [SelectionNode.field "a" [] none]) tiny_example_val
  refine ⟨h.1, h.2 _ (by simp [make_query]), ?_⟩
  exact (C6_document_invariants.2 [(("b" : String),
    (Except.error (Err.typeError "x") : Except Err (Strat SelectionNode))),
    (("a" : String), Except.error (Err.typeError "y"))]).1

end HypothesisGraphql
